import Mathlib

set_option maxRecDepth 100000

/-!
# Verification of the Blockchain-Py ledger (`blockchain/blockchain.py`)

A shallow embedding of the repository's `BlockChain` class and its
hashing / proof-of-work helpers, together with proofs and refutations of
the specification's claims about it.

Python's mutable lists are modelled by an explicit heap (`store`): a
Python list object is a reference (`Nat`) into the store.  This is
needed because `create_block` places the very list object
`self.current` into the sealed block, and `_reset_current_transactions`
rebinds `self.current` to a fresh list only when the queue was
non-empty — so a block sealed over an empty queue keeps aliasing the
pending queue.

SHA-256 is implemented concretely (FIPS 180-4) over `Nat` with explicit
`% 2^32` reductions, and `hash_block`'s serialization reproduces
`json.dumps(block, sort_keys=True)` for the namedtuples of the source
(tuples serialize as JSON arrays, so `sort_keys` is inert).
-/

/-- The SHA-256 word modulus, 2^32. -/
def w32 : Nat := 4294967296

/-- Right rotation of a 32-bit word. -/
def rotr (n x : Nat) : Nat := ((x >>> n) ||| (x <<< (32 - n))) % w32

/-- SHA-256 Σ₀. -/
def bigS0 (x : Nat) : Nat := rotr 2 x ^^^ rotr 13 x ^^^ rotr 22 x

/-- SHA-256 Σ₁. -/
def bigS1 (x : Nat) : Nat := rotr 6 x ^^^ rotr 11 x ^^^ rotr 25 x

/-- SHA-256 σ₀. -/
def smallS0 (x : Nat) : Nat := rotr 7 x ^^^ rotr 18 x ^^^ (x >>> 3)

/-- SHA-256 σ₁. -/
def smallS1 (x : Nat) : Nat := rotr 17 x ^^^ rotr 19 x ^^^ (x >>> 10)

/-- SHA-256 Ch. -/
def shaCh (x y z : Nat) : Nat := (x &&& y) ^^^ ((x ^^^ 4294967295) &&& z)

/-- SHA-256 Maj. -/
def shaMaj (x y z : Nat) : Nat := (x &&& y) ^^^ (x &&& z) ^^^ (y &&& z)

/-- The eight 32-bit words of a SHA-256 state (also used for the working
variables a..h of the compression function). -/
structure Hash8 where
  h0 : Nat
  h1 : Nat
  h2 : Nat
  h3 : Nat
  h4 : Nat
  h5 : Nat
  h6 : Nat
  h7 : Nat
deriving DecidableEq, Repr

/-- SHA-256 initial hash value. -/
def shaInit : Hash8 :=
  ⟨1779033703, 3144134277, 1013904242, 2773480762,
   1359893119, 2600822924, 528734635, 1541459225⟩

/-- The 64 SHA-256 round constants. -/
def shaK : List Nat :=
  [1116352408, 1899447441, 3049323471, 3921009573,
   961987163, 1508970993, 2453635748, 2870763221,
   3624381080, 310598401, 607225278, 1426881987,
   1925078388, 2162078206, 2614888103, 3248222580,
   3835390401, 4022224774, 264347078, 604807628,
   770255983, 1249150122, 1555081692, 1996064986,
   2554220882, 2821834349, 2952996808, 3210313671,
   3336571891, 3584528711, 113926993, 338241895,
   666307205, 773529912, 1294757372, 1396182291,
   1695183700, 1986661051, 2177026350, 2456956037,
   2730485921, 2820302411, 3259730800, 3345764771,
   3516065817, 3600352804, 4094571909, 275423344,
   430227734, 506948616, 659060556, 883997877,
   958139571, 1322822218, 1537002063, 1747873779,
   1955562222, 2024104815, 2227730452, 2361852424,
   2428436474, 2756734187, 3204031479, 3329325298]

/-- One SHA-256 round; `kw` is the (already reduced) sum of the round
constant and the schedule word. -/
def shaRound (st : Hash8) (kw : Nat) : Hash8 :=
  let t1 := (st.h7 + bigS1 st.h4 + shaCh st.h4 st.h5 st.h6 + kw) % w32
  let t2 := (bigS0 st.h0 + shaMaj st.h0 st.h1 st.h2) % w32
  ⟨(t1 + t2) % w32, st.h0, st.h1, st.h2, (st.h3 + t1) % w32, st.h4, st.h5, st.h6⟩

/-- Group a byte list into big-endian 32-bit words. -/
def beWords : List Nat → List Nat
  | a :: b :: c :: d :: rest => (((a * 256 + b) * 256 + c) * 256 + d) :: beWords rest
  | _ => []

/-- Emit the 64-word message schedule from the rolling 16-word window of
most recent words (`n` words still to emit). -/
def shaExtend : Nat → List Nat → List Nat
  | 0, _ => []
  | n + 1, win =>
    match win with
    | w0 :: w1 :: rest =>
      let x := (smallS1 (win.getD 14 0) + win.getD 9 0 + smallS0 w1 + w0) % w32
      w0 :: shaExtend n (w1 :: rest ++ [x])
    | _ => []

/-- SHA-256 compression of one 64-byte chunk (given as a list of bytes)
into the running state. -/
def shaCompress (st : Hash8) (chunk : List Nat) : Hash8 :=
  let w := shaExtend 64 (beWords chunk)
  let kw := List.zipWith (fun k x => (k + x) % w32) shaK w
  let f := kw.foldl shaRound st
  ⟨(st.h0 + f.h0) % w32, (st.h1 + f.h1) % w32, (st.h2 + f.h2) % w32,
   (st.h3 + f.h3) % w32, (st.h4 + f.h4) % w32, (st.h5 + f.h5) % w32,
   (st.h6 + f.h6) % w32, (st.h7 + f.h7) % w32⟩

/-- The 8-byte big-endian encoding of the bit length, for SHA-256 padding. -/
def beLen (n : Nat) : List Nat :=
  [(n >>> 56) % 256, (n >>> 48) % 256, (n >>> 40) % 256, (n >>> 32) % 256,
   (n >>> 24) % 256, (n >>> 16) % 256, (n >>> 8) % 256, n % 256]

/-- SHA-256 padding: append `0x80`, zeros to 56 mod 64, then the 64-bit
big-endian bit length. -/
def padMsg (m : List Nat) : List Nat :=
  m ++ 128 :: (List.replicate ((55 + 64 - m.length % 64) % 64) 0 ++ beLen (8 * m.length))

/-- SHA-256 of a byte list. -/
def sha256 (m : List Nat) : Hash8 :=
  let p := padMsg m
  (List.range (p.length / 64)).foldl (fun st i => shaCompress st ((p.drop (64 * i)).take 64)) shaInit

/-- Hexadecimal digit character (lowercase), as produced by Python's
`hexdigest`. -/
def hexDig (n : Nat) : Char := if n < 10 then Char.ofNat (48 + n) else Char.ofNat (87 + n)

/-- The 8 hex characters of one 32-bit word, most significant first. -/
def wordHex (x : Nat) : List Char :=
  [hexDig ((x >>> 28) &&& 15), hexDig ((x >>> 24) &&& 15),
   hexDig ((x >>> 20) &&& 15), hexDig ((x >>> 16) &&& 15),
   hexDig ((x >>> 12) &&& 15), hexDig ((x >>> 8) &&& 15),
   hexDig ((x >>> 4) &&& 15), hexDig (x &&& 15)]

/-- UTF-8 encoding of one character (Python strings are hashed after
`.encode()`). -/
def utf8Char (c : Char) : List Nat :=
  let n := c.toNat
  if n < 128 then [n]
  else if n < 2048 then [192 ||| (n >>> 6), 128 ||| (n &&& 63)]
  else if n < 65536 then
    [224 ||| (n >>> 12), 128 ||| ((n >>> 6) &&& 63), 128 ||| (n &&& 63)]
  else
    [240 ||| (n >>> 18), 128 ||| ((n >>> 12) &&& 63),
     128 ||| ((n >>> 6) &&& 63), 128 ||| (n &&& 63)]

/-- UTF-8 bytes of a string. -/
def strBytes (s : String) : List Nat :=
  s.data.foldr (fun c acc => utf8Char c ++ acc) []

/-- Model of `hashlib.sha256(s.encode()).hexdigest()`: the lowercase hexadecimal
SHA-256 digest of a string. -/
def sha256hex (s : String) : String :=
  let st := sha256 (strBytes s)
  String.mk (wordHex st.h0 ++ wordHex st.h1 ++ wordHex st.h2 ++ wordHex st.h3 ++
             wordHex st.h4 ++ wordHex st.h5 ++ wordHex st.h6 ++ wordHex st.h7)

/-! ## Data model

`TRANSACTION = namedtuple("Transaction", ['From', 'To', 'Amount'])` and
`BLOCK = namedtuple("Block", ['Index', 'Timestamp', 'Transactions', 'Hash', 'PreviousHash'])`.
Note the source stores the proof-of-work value in the field named `Hash`.

A Python list object is modelled as a reference (index) into a store of
lists, so `Block` carries `TxRef`, the reference to its transactions
list, exactly as the namedtuple holds the list object put into it. -/

/-- A transaction record (amounts in the repository's tests and driver
are integers; `json` prints Lean's `Int` the same way). -/
structure Txn where
  From : String
  To : String
  Amount : Int
deriving DecidableEq, Repr

/-- The value stored in a block's `Hash` (proof) field: the genesis
sentinel is the string `"100"`, mined proofs are integers. -/
inductive PVal where
  | ofString (s : String)
  | ofNat (n : Nat)
deriving DecidableEq, Repr

/-- A block record.  `Timestamp` is the JSON serialization of the
`time()` float — an arbitrary input of the model, since the source
stamps blocks with the wall clock.  `TxRef` is the reference to the
(mutable) transactions list. -/
structure Block where
  Index : Nat
  Timestamp : String
  TxRef : Nat
  Hash : PVal
  PreviousHash : String
deriving DecidableEq, Repr

/-- The `BlockChain` object state: the heap of list objects, the chain,
and the reference held by `self.current`. -/
structure BCState where
  store : List (List Txn)
  chain : List Block
  currentRef : Nat
deriving DecidableEq, Repr

/-- Look up a list object in the heap. -/
def deref (s : BCState) (r : Nat) : List Txn := s.store.getD r []

/-! ## Serialization: `json.dumps(block, sort_keys=True)`

Namedtuples are tuples, so they serialize as JSON arrays and
`sort_keys` has no effect; separators default to `", "`.  `json.dumps`
escapes strings with `ensure_ascii=True`. -/

/-- Four hex digits of a 16-bit value, for `\uXXXX` escapes. -/
def hex4 (n : Nat) : List Char :=
  [hexDig ((n >>> 12) &&& 15), hexDig ((n >>> 8) &&& 15),
   hexDig ((n >>> 4) &&& 15), hexDig (n &&& 15)]

/-- JSON escaping of one character, following `json.dumps` with its
default `ensure_ascii=True` (non-ASCII becomes `\uXXXX`, astral planes
become surrogate pairs). -/
def escChar (c : Char) : List Char :=
  if c = '"' then ['\\', '"']
  else if c = '\\' then ['\\', '\\']
  else if c.toNat = 10 then ['\\', 'n']
  else if c.toNat = 13 then ['\\', 'r']
  else if c.toNat = 9 then ['\\', 't']
  else if c.toNat = 8 then ['\\', 'b']
  else if c.toNat = 12 then ['\\', 'f']
  else if c.toNat < 32 then '\\' :: 'u' :: hex4 c.toNat
  else if c.toNat < 127 then [c]
  else if c.toNat < 65536 then '\\' :: 'u' :: hex4 c.toNat
  else
    ('\\' :: 'u' :: hex4 (55296 + (c.toNat - 65536) / 1024)) ++
    ('\\' :: 'u' :: hex4 (56320 + (c.toNat - 65536) % 1024))

/-- A JSON string literal for `s`. -/
def jsonStr (s : String) : String :=
  String.mk ('"' :: s.data.foldr (fun c acc => escChar c ++ acc) ['"'])

/-- JSON serialization of one transaction namedtuple. -/
def serTx (t : Txn) : String :=
  "[" ++ jsonStr t.From ++ ", " ++ jsonStr t.To ++ ", " ++ toString t.Amount ++ "]"

/-- JSON serialization of a transactions list. -/
def serTxs (l : List Txn) : String :=
  "[" ++ String.intercalate ", " (l.map serTx) ++ "]"

/-- JSON serialization of the proof field (a string for genesis, an
integer for mined blocks). -/
def serPVal : PVal → String
  | .ofString s => jsonStr s
  | .ofNat n => toString n

/-- The `'%s'`-formatting of the proof field, as used by `validate_proof`. -/
def pvalStr : PVal → String
  | .ofString s => s
  | .ofNat n => toString n

/-- Serialization `json.dumps(block, sort_keys=True)` for a block whose transactions
list holds `txs`. -/
def serBlock (txs : List Txn) (b : Block) : String :=
  "[" ++ toString b.Index ++ ", " ++ b.Timestamp ++ ", " ++ serTxs txs ++ ", " ++
  serPVal b.Hash ++ ", " ++ jsonStr b.PreviousHash ++ "]"

/-! ## The hashing / proof module -/

/-- Python string slicing `s[:n]`. -/
def strTake (s : String) (n : Nat) : String := String.mk (s.data.take n)

/-- Model of `BlockChain.validate_proof(last_proof, proof, last_hash)`: SHA-256
the `'%s%s%s'` concatenation and test the first four hex characters.
The arguments are the already-`%s`-formatted strings. -/
def validate_proofS (last_proof proof last_hash : String) : Bool :=
  strTake (sha256hex (last_proof ++ proof ++ last_hash)) 4 == "0000"

/-- The proof-of-work predicate searched by
`BlockChain._generate_proof_of_work`: the candidate `proof` is a Python
integer, formatted with `str`. -/
def powPred (last_proof last_hash : String) (p : Nat) : Prop :=
  validate_proofS last_proof (toString p) last_hash = true

instance (lp lh : String) (p : Nat) : Decidable (powPred lp lh p) := by
  unfold powPred; infer_instance

/-- The `while` search of `_generate_proof_of_work`: starting at 0 and
incrementing, it returns the least satisfying proof — total only given
that a satisfying proof exists, which the hypothesis supplies. -/
def find_proof (lp lh : String) (h : ∃ p, powPred lp lh p) : Nat := Nat.find h

/-- Model of `BlockChain.hash_block(block)`: SHA-256 hex digest of the canonical
serialization.  Takes the state because the block's transactions list
lives in the heap. -/
def hash_block (s : BCState) (b : Block) : String :=
  sha256hex (serBlock (deref s b.TxRef) b)

/-! ## The ledger operations -/

/-- Model of `BlockChain.get_size`. -/
def get_size (s : BCState) : Nat := s.chain.length

/-- Model of `BlockChain.get_last_block` (`None` when the chain is empty). -/
def get_last_block (s : BCState) : Option Block := s.chain.getLast?

/-- Model of `BlockChain.get_chain`. -/
def get_chain (s : BCState) : List Block := s.chain

/-- Model of `BlockChain.create_transaction`: append a new transaction to the
list object referenced by `self.current`, and return it. -/
def create_transaction (s : BCState) (sender recipient : String) (amount : Int) :
    BCState × Txn :=
  let t : Txn := ⟨sender, recipient, amount⟩
  (⟨s.store.set s.currentRef (deref s s.currentRef ++ [t]), s.chain, s.currentRef⟩, t)

/-- The state after `self.current = []`: a fresh empty list object is
allocated and `self.current` rebound to it. -/
def rebindCurrent (s : BCState) : BCState :=
  ⟨s.store ++ [[]], s.chain, s.store.length⟩

/-- Model of `BlockChain._reset_current_transactions`: nothing to do when the
queue is empty (the queue object is left in place); otherwise the
queue is cleared only when the last block's transactions equal it
(Python `==` is value equality); otherwise `IOError` (`none`). -/
def reset_current (s : BCState) : Option BCState :=
  if deref s s.currentRef = [] then some s
  else
    match s.chain.getLast? with
    | some lb => if deref s lb.TxRef = deref s s.currentRef then some (rebindCurrent s) else none
    | none => none

/-- Model of `BlockChain.create_block(is_genesis=True)`: sentinel proof `"100"`
and sentinel previous hash `"1"`, no proof-of-work; the block receives
the `self.current` list object itself. -/
def create_block_genesis (s : BCState) (ts : String) : Option (BCState × Block) :=
  let block : Block := ⟨get_size s + 1, ts, s.currentRef, PVal.ofString "100", "1"⟩
  match reset_current ⟨s.store, s.chain ++ [block], s.currentRef⟩ with
  | some s2 => some (s2, block)
  | none => none

/-- Model of `BlockChain.create_block(is_genesis=False)` with the proof value
`p` returned by `_generate_proof_of_work` (the step relation below
constrains `p` to be exactly the value the `while` search returns).
`none` when the chain is empty (`get_last_block` returns `None` and
the source would crash dereferencing it) or the reset check fails. -/
def create_block (s : BCState) (ts : String) (p : Nat) : Option (BCState × Block) :=
  match get_last_block s with
  | none => none
  | some last =>
    let previous_hash := hash_block s last
    let block : Block := ⟨get_size s + 1, ts, s.currentRef, PVal.ofNat p, previous_hash⟩
    match reset_current ⟨s.store, s.chain ++ [block], s.currentRef⟩ with
    | some s2 => some (s2, block)
    | none => none

/-- Model of `BlockChain.__init__`: empty chain, one empty pending list, then
the genesis block is sealed. -/
def initState (ts : String) : Option BCState :=
  (create_block_genesis ⟨[[]], [], 0⟩ ts).map Prod.fst

/-- The value `_generate_proof_of_work` returns on state `s`: the least
`p` satisfying `validate_proof(last_block.Hash, p, hash_block(last_block))`
— i.e. `p` is valid and every smaller candidate failed. -/
def pow_ok (s : BCState) (p : Nat) : Prop :=
  match get_last_block s with
  | some last =>
    powPred (pvalStr last.Hash) (hash_block s last) p ∧
    ∀ q, q < p → ¬ powPred (pvalStr last.Hash) (hash_block s last) q
  | none => False

/-- Ledger states reachable by a single-threaded sequence of
`create_transaction` and `create_block` calls after `__init__`. -/
inductive Reachable : BCState → Prop
  | init (ts : String) (s : BCState) : initState ts = some s → Reachable s
  | queue (s : BCState) (sender recipient : String) (amount : Int) :
      Reachable s → Reachable (create_transaction s sender recipient amount).1
  | mine (s : BCState) (ts : String) (p : Nat) (s2 : BCState) (b : Block) :
      Reachable s → pow_ok s p → create_block s ts p = some (s2, b) → Reachable s2

/-! ## Concrete states for witnesses and counterexamples

Timestamps are inputs of the model (the source stamps blocks with
`time()`); the values below are chosen so that the resulting
proof-of-work searches succeed quickly, keeping the kernel evaluations
small.  Every fact about them is established by `decide` against the
definitions above. -/

/-- A placeholder block for `List.getD` lookups. -/
def dummyBlock : Block := ⟨0, "", 0, PVal.ofNat 0, ""⟩

/-- Genesis block sealed at timestamp `3684.0`. -/
def B1A : Block := ⟨1, "3684.0", 0, PVal.ofString "100", "1"⟩

/-- The ledger state right after `__init__` at timestamp `3684.0`. -/
def S1A : BCState := ⟨[[]], [B1A], 0⟩

/-- The second block mined on `S1A` at timestamp `2.0`: its proof is 5
(the least valid one for the genesis digest) and its previous hash is
the digest of the genesis block. -/
def B2A : Block :=
  ⟨2, "2.0", 0, PVal.ofNat 5,
   "e7a1888e7895bd0afd07804647c28b325b73484479d32095c1b495dcb78ce489"⟩

/-- The state after mining `B2A` on `S1A` (the pending queue was empty,
so `self.current` is left in place and still aliases both blocks). -/
def S2A : BCState := ⟨[[]], [B1A, B2A], 0⟩

/-- Genesis block sealed at timestamp `1660.0` (used for the queue-then-
seal witness; the least proof over its one-transaction digest is 1). -/
def B1B : Block := ⟨1, "1660.0", 0, PVal.ofString "100", "1"⟩

/-- The ledger state right after `__init__` at timestamp `1660.0`. -/
def S1B : BCState := ⟨[[]], [B1B], 0⟩

/-! ## Structural lemmas about the operations -/

/-- Evaluating `__init__`: the state is one empty list object, a chain
holding just the genesis block, and `self.current` pointing at that
object (which genesis also holds). -/
theorem initState_eq (ts : String) :
    initState ts = some ⟨[[]], [⟨1, ts, 0, PVal.ofString "100", "1"⟩], 0⟩ := rfl

/-- A decidable stand-in for bounded quantification over proofs. -/
theorem forall_lt_of_range_all {P : Nat → Prop} [DecidablePred P] {p : Nat}
    (h : ((List.range p).all fun q => decide (¬ P q)) = true) :
    ∀ q, q < p → ¬ P q := by
  intro q hq
  have hx := List.all_eq_true.mp h q (List.mem_range.mpr hq)
  simpa using hx

/-- Unfolding: `_reset_current_transactions` either leaves the state alone (empty
queue) or rebinds `self.current` to a fresh empty list object; it never
touches the chain or existing list objects. -/
theorem reset_some {s s2 : BCState} (h : reset_current s = some s2) :
    (deref s s.currentRef = [] ∧ s2 = s) ∨
    (deref s s.currentRef ≠ [] ∧ s2 = rebindCurrent s) := by
  unfold reset_current at h
  by_cases h1 : deref s s.currentRef = []
  · rw [if_pos h1] at h
    exact Or.inl ⟨h1, (Option.some.inj h).symm⟩
  · rw [if_neg h1] at h
    cases hl : s.chain.getLast? with
    | none => rw [hl] at h; cases h
    | some lb =>
      rw [hl] at h
      dsimp only at h
      by_cases h2 : deref s lb.TxRef = deref s s.currentRef
      · rw [if_pos h2] at h
        exact Or.inr ⟨h1, (Option.some.inj h).symm⟩
      · rw [if_neg h2] at h; cases h

/-- Unfolding a successful `create_block(is_genesis=False)`: the block
records size+1, the given timestamp, the `self.current` reference, the
proof, and the digest of the previous block; the chain is extended by
exactly this block; the heap is untouched or extended by one fresh
empty object. -/
theorem create_block_some {s : BCState} {ts : String} {p : Nat} {s2 : BCState} {b : Block}
    (h : create_block s ts p = some (s2, b)) :
    ∃ last, get_last_block s = some last ∧
      b = ⟨s.chain.length + 1, ts, s.currentRef, PVal.ofNat p, hash_block s last⟩ ∧
      s2.chain = s.chain ++ [b] ∧
      ((deref s s.currentRef = [] ∧ s2.store = s.store ∧ s2.currentRef = s.currentRef) ∨
       (deref s s.currentRef ≠ [] ∧ s2.store = s.store ++ [[]] ∧
        s2.currentRef = s.store.length)) := by
  unfold create_block at h
  cases hl : get_last_block s with
  | none => rw [hl] at h; cases h
  | some last =>
    rw [hl] at h
    dsimp only at h
    refine ⟨last, rfl, ?_⟩
    cases hr : reset_current ⟨s.store, s.chain ++
        [⟨get_size s + 1, ts, s.currentRef, PVal.ofNat p, hash_block s last⟩], s.currentRef⟩ with
    | none => rw [hr] at h; cases h
    | some s3 =>
      rw [hr] at h
      have hp := Option.some.inj h
      have hs3 : s3 = s2 := congrArg Prod.fst hp
      have hb : b = ⟨get_size s + 1, ts, s.currentRef, PVal.ofNat p, hash_block s last⟩ :=
        (congrArg Prod.snd hp).symm
      subst hs3
      rcases reset_some hr with ⟨he, h2⟩ | ⟨he, h2⟩ <;> subst h2
      · exact ⟨hb, by rw [hb], Or.inl ⟨he, rfl, rfl⟩⟩
      · exact ⟨hb, by rw [hb]; rfl, Or.inr ⟨he, rfl, rfl⟩⟩

/-- Operation `create_transaction` does not touch the chain. -/
theorem create_transaction_chain (s : BCState) (a b : String) (c : Int) :
    ((create_transaction s a b c).1).chain = s.chain := rfl

/-- Operation `create_transaction` does not rebind `self.current`. -/
theorem create_transaction_currentRef (s : BCState) (a b : String) (c : Int) :
    ((create_transaction s a b c).1).currentRef = s.currentRef := rfl

/-- Operation `create_transaction` allocates no list object. -/
theorem create_transaction_store_length (s : BCState) (a b : String) (c : Int) :
    ((create_transaction s a b c).1).store.length = s.store.length := by
  simp [create_transaction]

/-- In every reachable state `self.current` is a live reference. -/
theorem reachable_wf {s : BCState} (h : Reachable s) : s.currentRef < s.store.length := by
  induction h with
  | init ts s hs =>
    rw [initState_eq] at hs
    cases Option.some.inj hs
    exact Nat.one_pos
  | queue s a b c hs ih =>
    rw [create_transaction_currentRef, create_transaction_store_length]
    exact ih
  | mine s ts p s2 bl hs hpow hcb ih =>
    obtain ⟨last, hl, hb, hchain, hst⟩ := create_block_some hcb
    rcases hst with ⟨he, h1, h2⟩ | ⟨he, h1, h2⟩
    · rw [h1, h2]; exact ih
    · rw [h1, h2]; simp

/-- Every reachable chain is non-empty (genesis is sealed at
construction and blocks are only appended). -/
theorem reachable_chain_ne {s : BCState} (h : Reachable s) : s.chain ≠ [] := by
  induction h with
  | init ts s hs =>
    rw [initState_eq] at hs
    cases Option.some.inj hs
    exact List.cons_ne_nil _ _
  | queue s a b c hs ih => rw [create_transaction_chain]; exact ih
  | mine s ts p s2 bl hs hpow hcb ih =>
    obtain ⟨last, hl, hb, hchain, hst⟩ := create_block_some hcb
    rw [hchain]
    simp

/-- Helper: `getLast?` agrees with `getD` at the last position. -/
theorem getLast?_getD {α : Type} (d : α) :
    ∀ (l : List α) (a : α), l.getLast? = some a → l.getD (l.length - 1) d = a
  | [x], a, h => by
    simp only [List.getLast?_singleton] at h
    cases Option.some.inj h
    rfl
  | x :: y :: ys, a, h => by
    rw [List.getLast?_cons_cons] at h
    have ih := getLast?_getD d (y :: ys) a h
    simpa using ih

/-- Helper: `getD` at the position of a just-appended element. -/
theorem getD_concat_len {α : Type} (d : α) (l : List α) (b : α) :
    (l ++ [b]).getD l.length d = b := by
  induction l with
  | nil => rfl
  | cons x xs ih => simp [ih]

/-- Claim C9's invariant, as a predicate on states: block `Index`
values are exactly `1..N`. -/
def indexSeq (s : BCState) : Prop :=
  ∀ i, i < s.chain.length → (s.chain.getD i dummyBlock).Index = i + 1

/-- Claim C3's invariant, as a predicate on states: each adjacent pair
of stored blocks passes `validate_proof` on its stored fields. -/
def chainLink (s : BCState) : Prop :=
  ∀ i, i + 1 < s.chain.length →
    validate_proofS (pvalStr ((s.chain.getD i dummyBlock).Hash))
      (pvalStr ((s.chain.getD (i + 1) dummyBlock).Hash))
      ((s.chain.getD (i + 1) dummyBlock).PreviousHash) = true

/-- Every reachable state has gapless indices `1..N`. -/
theorem reachable_indexSeq {s : BCState} (h : Reachable s) : indexSeq s := by
  induction h with
  | init ts s hs =>
    rw [initState_eq] at hs
    cases Option.some.inj hs
    intro i hi
    simp only [List.length_cons, List.length_nil] at hi
    interval_cases i
    rfl
  | queue s a b c hs ih =>
    intro i hi
    rw [create_transaction_chain] at hi ⊢
    exact ih i hi
  | mine s ts p s2 bl hs hpow hcb ih =>
    obtain ⟨last, hl, hb, hchain, hst⟩ := create_block_some hcb
    intro i hi
    rw [hchain] at hi ⊢
    rw [List.length_append, List.length_singleton] at hi
    rcases Nat.lt_or_ge i s.chain.length with h1 | h1
    · rw [List.getD_append _ _ _ _ h1]
      exact ih i h1
    · have h2 : i = s.chain.length := by omega
      subst h2
      rw [getD_concat_len, hb]

/-- Every reachable state satisfies the stored-fields proof-of-work
linkage: the mining loop stopped at a valid proof, and later operations
never rewrite the scalar fields of a sealed block. -/
theorem reachable_chainLink {s : BCState} (h : Reachable s) : chainLink s := by
  induction h with
  | init ts s hs =>
    rw [initState_eq] at hs
    cases Option.some.inj hs
    intro i hi
    simp only [List.length_cons, List.length_nil] at hi
    omega
  | queue s a b c hs ih =>
    intro i hi
    rw [create_transaction_chain] at hi ⊢
    exact ih i hi
  | mine s ts p s2 bl hs hpow hcb ih =>
    obtain ⟨last, hl, hb, hchain, hst⟩ := create_block_some hcb
    intro i hi
    rw [hchain] at hi ⊢
    rw [List.length_append, List.length_singleton] at hi
    rcases Nat.lt_or_ge (i + 1) s.chain.length with h1 | h1
    · have h0 : i < s.chain.length := by omega
      rw [List.getD_append _ _ _ _ h0, List.getD_append _ _ _ _ h1]
      exact ih i h1
    · have h2 : i + 1 = s.chain.length := by omega
      have h3 : i < s.chain.length := by omega
      rw [List.getD_append _ _ _ _ h3, h2, getD_concat_len]
      have hlast : s.chain.getD i dummyBlock = last := by
        have hx := getLast?_getD dummyBlock s.chain last hl
        rw [← hx]
        congr 1
        omega
      rw [hlast, hb]
      unfold pow_ok at hpow
      rw [hl] at hpow
      exact hpow.1

/-- The state after `k` successive `create_transaction` calls, one per
entry of `l` (in order). -/
def queue_list (s : BCState) (l : List Txn) : BCState :=
  l.foldl (fun st t => (create_transaction st t.From t.To t.Amount).1) s

/-- Queueing does not touch the chain. -/
theorem queue_list_chain (l : List Txn) : ∀ s : BCState, (queue_list s l).chain = s.chain := by
  induction l with
  | nil => intro s; rfl
  | cons t ts ih =>
    intro s
    have hx := ih (create_transaction s t.From t.To t.Amount).1
    exact hx.trans (create_transaction_chain ..)

/-- Queueing does not rebind `self.current`. -/
theorem queue_list_currentRef (l : List Txn) :
    ∀ s : BCState, (queue_list s l).currentRef = s.currentRef := by
  induction l with
  | nil => intro s; rfl
  | cons t ts ih =>
    intro s
    have hx := ih (create_transaction s t.From t.To t.Amount).1
    exact hx.trans (create_transaction_currentRef ..)

/-- Queueing allocates no list object. -/
theorem queue_list_store_length (l : List Txn) :
    ∀ s : BCState, (queue_list s l).store.length = s.store.length := by
  induction l with
  | nil => intro s; rfl
  | cons t ts ih =>
    intro s
    have hx := ih (create_transaction s t.From t.To t.Amount).1
    exact hx.trans (create_transaction_store_length ..)

/-- Helper: `getD` after `set` at the same (live) index. -/
theorem getD_set_self {α : Type} (d : α) :
    ∀ (l : List α) (n : Nat) (a : α), n < l.length → (l.set n a).getD n d = a
  | _ :: _, 0, _, _ => rfl
  | _ :: xs, n + 1, a, h =>
    getD_set_self d xs n a (Nat.lt_of_succ_lt_succ h)

/-- Queueing appends to the pending list object, in order. -/
theorem queue_list_deref (l : List Txn) :
    ∀ s : BCState, s.currentRef < s.store.length →
      deref (queue_list s l) s.currentRef = deref s s.currentRef ++ l := by
  induction l with
  | nil => intro s _; simp [queue_list]
  | cons t ts ih =>
    intro s h
    have hstep : deref (create_transaction s t.From t.To t.Amount).1 s.currentRef =
        deref s s.currentRef ++ [t] := by
      show (s.store.set s.currentRef (deref s s.currentRef ++ [⟨t.From, t.To, t.Amount⟩])).getD
        s.currentRef [] = deref s s.currentRef ++ [t]
      rw [getD_set_self _ _ _ _ h]
    have hlen : s.currentRef < ((create_transaction s t.From t.To t.Amount).1).store.length := by
      rw [create_transaction_store_length]; exact h
    have hx := ih (create_transaction s t.From t.To t.Amount).1 hlen
    rw [create_transaction_currentRef] at hx
    show deref (queue_list (create_transaction s t.From t.To t.Amount).1 ts) s.currentRef = _
    rw [hx, hstep, List.append_assoc, List.singleton_append]

/-- After appending a block holding the `self.current` reference, the
reset check always succeeds: either the queue is empty, or the last
block's list is (the very same object, hence) equal to it. -/
theorem reset_after_append (st : List (List Txn)) (ch : List Block) (cur i : Nat)
    (ts : String) (pv : PVal) (ph : String) :
    ∃ s2, reset_current ⟨st, ch ++ [⟨i, ts, cur, pv, ph⟩], cur⟩ = some s2 := by
  unfold reset_current
  by_cases h1 : deref ⟨st, ch ++ [⟨i, ts, cur, pv, ph⟩], cur⟩ cur = []
  · rw [if_pos h1]
    exact ⟨_, rfl⟩
  · rw [if_neg h1]
    have hlast : (ch ++ [(⟨i, ts, cur, pv, ph⟩ : Block)]).getLast? =
        some ⟨i, ts, cur, pv, ph⟩ := by
      rw [List.getLast?_append_of_ne_nil ch (List.cons_ne_nil _ _)]
      rfl
    rw [hlast]
    dsimp only
    rw [if_pos rfl]
    exact ⟨_, rfl⟩

/-- On any state with a sealed block, `create_block` succeeds. -/
theorem create_block_total (s : BCState) (ts : String) (p : Nat) (h : s.chain ≠ []) :
    ∃ s2 b, create_block s ts p = some (s2, b) := by
  have hl := List.getLast?_eq_getLast_of_ne_nil h
  unfold create_block get_last_block
  rw [hl]
  dsimp only
  obtain ⟨s2, hr⟩ := reset_after_append s.store s.chain s.currentRef (get_size s + 1) ts
    (PVal.ofNat p) (hash_block s (s.chain.getLast h))
  rw [hr]
  exact ⟨s2, _, rfl⟩

/-- Sealing over an empty queue leaves `self.current` in place: the new
block's transactions reference IS the pending-queue reference, and the
state is only extended by the block. -/
theorem create_block_empty_alias {s s2 : BCState} {ts : String} {p : Nat} {b : Block}
    (hemp : deref s s.currentRef = []) (h : create_block s ts p = some (s2, b)) :
    s2 = ⟨s.store, s.chain ++ [b], s.currentRef⟩ ∧ b.TxRef = s.currentRef := by
  unfold create_block at h
  cases hl : get_last_block s with
  | none => rw [hl] at h; cases h
  | some last =>
    rw [hl] at h
    dsimp only at h
    have hemp2 : deref ⟨s.store, s.chain ++
        [⟨get_size s + 1, ts, s.currentRef, PVal.ofNat p, hash_block s last⟩],
        s.currentRef⟩ s.currentRef = [] := hemp
    have hr : reset_current ⟨s.store, s.chain ++
        [⟨get_size s + 1, ts, s.currentRef, PVal.ofNat p, hash_block s last⟩],
        s.currentRef⟩ = some ⟨s.store, s.chain ++
        [⟨get_size s + 1, ts, s.currentRef, PVal.ofNat p, hash_block s last⟩],
        s.currentRef⟩ := by
      unfold reset_current
      rw [if_pos hemp2]
    rw [hr] at h
    have hp := Option.some.inj h
    have hs2 := congrArg Prod.fst hp
    have hb := congrArg Prod.snd hp
    dsimp only at hs2 hb
    rw [← hs2, ← hb]
    exact ⟨rfl, rfl⟩

/-! ## Concrete executions -/

/-- The transaction `("A", "B", 1)` of the spec's scenarios. -/
def T1 : Txn := ⟨"A", "B", 1⟩

/-- Evaluating `__init__` at timestamp `3684.0` produces exactly `S1A`. -/
theorem initState_S1A : initState "3684.0" = some S1A := rfl

/-- State `S1A` is reachable (it is an initial state). -/
theorem reachable_S1A : Reachable S1A := Reachable.init "3684.0" S1A initState_S1A

/-- Evaluating `__init__` at timestamp `1660.0` produces exactly `S1B`. -/
theorem initState_S1B : initState "1660.0" = some S1B := rfl

/-- State `S1B` is reachable (it is an initial state). -/
theorem reachable_S1B : Reachable S1B := Reachable.init "1660.0" S1B initState_S1B

/-- The value 5 is what `_generate_proof_of_work` returns on `S1A`: it
satisfies the predicate over the genesis digest and 0..4 do not. -/
theorem pow_ok_S1A : pow_ok S1A 5 := by
  unfold pow_ok
  rw [show get_last_block S1A = some B1A from rfl]
  exact ⟨by decide, forall_lt_of_range_all (by decide)⟩

/-- Mining on `S1A` at timestamp `2.0` seals exactly `B2A`. -/
theorem seal_S1A : create_block S1A "2.0" 5 = some (S2A, B2A) := by decide

/-- State `S2A` is reachable: initialize at `3684.0`, then mine once. -/
theorem reachable_S2A : Reachable S2A :=
  Reachable.mine S1A "2.0" 5 S2A B2A reachable_S1A pow_ok_S1A seal_S1A

/-- The state after queueing `("A", "B", 1)` on `S1B`. -/
def SQB : BCState := queue_list S1B [T1]

/-- The value 1 is what `_generate_proof_of_work` returns on `SQB`: it
satisfies the predicate over the one-transaction genesis digest and 0
does not. -/
theorem pow_ok_SQB : pow_ok SQB 1 := by
  unfold pow_ok
  rw [show get_last_block SQB = some B1B from rfl]
  exact ⟨by decide, forall_lt_of_range_all (by decide)⟩

/-- The second block mined on `SQB` at timestamp `9.0`: proof 1,
previous hash the digest of the genesis block carrying `T1`. -/
def B2B : Block :=
  ⟨2, "9.0", 0, PVal.ofNat 1,
   "59ecc472e3dd20b9ebb27bdeccd30d971bc146f780d5ef25a1c92e65e562680b"⟩

/-- The state after mining `B2B` on `SQB`: the queue was non-empty, so
`self.current` was rebound to a fresh empty list object (reference 1). -/
def S2B : BCState := ⟨[[T1], []], [B1B, B2B], 1⟩

/-- Mining on `SQB` at timestamp `9.0` seals exactly `B2B`. -/
theorem seal_SQB : create_block SQB "9.0" 1 = some (S2B, B2B) := by decide

/-- The mutated state of claim C1: after mining an (empty) second block
on `S1A`, one further `create_transaction` call appends to the list
object that genesis, the second block, and `self.current` all share. -/
def S3A : BCState := (create_transaction S2A "A" "B" 1).1

/-- State `S3A` is reachable. -/
theorem reachable_S3A : Reachable S3A := Reachable.queue S2A "A" "B" 1 reachable_S2A

/-- The state of claim C2: a single `create_transaction` call right
after `__init__` (genesis still aliases the queue). -/
def S1Aq : BCState := (create_transaction S1A "A" "B" 1).1

/-- State `S1Aq` is reachable. -/
theorem reachable_S1Aq : Reachable S1Aq := Reachable.queue S1A "A" "B" 1 reachable_S1A

/-! ## The claims -/

/-- C3: in every reachable ledger state, every non-genesis block `B` at
position `i > 0` satisfies
`validate_proof(chain[i-1].proof, B.proof, B.previous_hash) == true` on
the values stored in the block records (the proof lives in the
namedtuple field called `Hash`; `validate_proof` formats its arguments
with `%s`). -/
theorem c3_pow_admission {s : BCState} (h : Reachable s) :
    ∀ i, i + 1 < s.chain.length →
      validate_proofS (pvalStr ((s.chain.getD i dummyBlock).Hash))
        (pvalStr ((s.chain.getD (i + 1) dummyBlock).Hash))
        ((s.chain.getD (i + 1) dummyBlock).PreviousHash) = true :=
  reachable_chainLink h

/-- Witness for C3 at the two-block state `S2A`. -/
theorem c3_pow_admission_witness :
    validate_proofS (pvalStr ((S2A.chain.getD 0 dummyBlock).Hash))
      (pvalStr ((S2A.chain.getD 1 dummyBlock).Hash))
      ((S2A.chain.getD 1 dummyBlock).PreviousHash) = true :=
  c3_pow_admission reachable_S2A 0 (by decide)

/-- C9: every `create_block(is_genesis=False)` call on a reachable
state succeeds and grows `get_size` by exactly one, and in every
reachable state the stored `Index` fields are the gapless sequence
`1..N`. -/
theorem c9_size_and_indices :
    (∀ (s : BCState) (ts : String) (p : Nat), Reachable s →
      ∃ s2 b, create_block s ts p = some (s2, b) ∧ get_size s2 = get_size s + 1) ∧
    (∀ s : BCState, Reachable s →
      ∀ i, i < s.chain.length → (s.chain.getD i dummyBlock).Index = i + 1) := by
  constructor
  · intro s ts p h
    obtain ⟨s2, b, hcb⟩ := create_block_total s ts p (reachable_chain_ne h)
    obtain ⟨last, hl, hb, hchain, hst⟩ := create_block_some hcb
    refine ⟨s2, b, hcb, ?_⟩
    show s2.chain.length = s.chain.length + 1
    rw [hchain]
    simp
  · intro s h
    exact reachable_indexSeq h

/-- Witness for C9: one mining step on `S1A` and the indices of `S2A`. -/
theorem c9_size_and_indices_witness :
    (∃ s2 b, create_block S1A "2.0" 5 = some (s2, b) ∧ get_size s2 = get_size S1A + 1) ∧
    (S2A.chain.getD 1 dummyBlock).Index = 1 + 1 :=
  ⟨c9_size_and_indices.1 S1A "2.0" 5 reachable_S1A,
   c9_size_and_indices.2 S2A reachable_S2A 1 (by decide)⟩

/-- C5: the queue-clearing `IOError` fires only when a non-empty queue
fails to match the last block's transactions; on reachable states a
`create_block` call always succeeds (the just-appended block holds the
very queue object, so the check cannot fail single-threaded); sealing
over an empty queue is valid and yields a block with no transactions. -/
theorem c5_seal_never_fails :
    (∀ s : BCState, reset_current s = none →
      deref s s.currentRef ≠ [] ∧
      ¬ ∃ lb, s.chain.getLast? = some lb ∧ deref s lb.TxRef = deref s s.currentRef) ∧
    (∀ (s : BCState) (ts : String) (p : Nat), Reachable s →
      ∃ s2 b, create_block s ts p = some (s2, b)) ∧
    (∀ (s : BCState) (ts : String) (p : Nat) (s2 : BCState) (b : Block),
      deref s s.currentRef = [] → create_block s ts p = some (s2, b) →
      deref s2 b.TxRef = []) := by
  refine ⟨?_, ?_, ?_⟩
  · intro s h
    unfold reset_current at h
    by_cases h1 : deref s s.currentRef = []
    · rw [if_pos h1] at h; cases h
    · rw [if_neg h1] at h
      refine ⟨h1, ?_⟩
      rintro ⟨lb, hlb, heq⟩
      rw [hlb] at h
      dsimp only at h
      rw [if_pos heq] at h
      cases h
  · intro s ts p h
    exact create_block_total s ts p (reachable_chain_ne h)
  · intro s ts p s2 b hemp hcb
    obtain ⟨hs2, htx⟩ := create_block_empty_alias hemp hcb
    rw [hs2, htx]
    exact hemp

/-- Witness for C5: a state with pending transactions but no chain does
make `_reset_current_transactions` raise; mining on the reachable `S1A`
succeeds; the empty-queue seal `S1A → S2A` yields a block with no
transactions. -/
theorem c5_seal_never_fails_witness :
    (deref ⟨[[T1]], [], 0⟩ (BCState.currentRef ⟨[[T1]], [], 0⟩) ≠ [] ∧
      ¬ ∃ lb, (BCState.chain ⟨[[T1]], [], 0⟩).getLast? = some lb ∧
        deref ⟨[[T1]], [], 0⟩ lb.TxRef = deref ⟨[[T1]], [], 0⟩ (BCState.currentRef ⟨[[T1]], [], 0⟩)) ∧
    (∃ s2 b, create_block S1A "2.0" 5 = some (s2, b)) ∧
    deref S2A B2A.TxRef = [] :=
  ⟨c5_seal_never_fails.1 ⟨[[T1]], [], 0⟩ rfl,
   c5_seal_never_fails.2.1 S1A "2.0" 5 reachable_S1A,
   c5_seal_never_fails.2.2 S1A "2.0" 5 S2A B2A (by decide) seal_S1A⟩

/-- C4: queueing the transactions of `l` and then sealing yields a
block whose transaction list is exactly the previously pending
transactions followed by `l`, in insertion order, and the pending queue
reads empty immediately after the seal. -/
theorem c4_queue_then_seal {s : BCState} (h : Reachable s) (l : List Txn) (ts : String)
    (p : Nat) {s2 : BCState} {b : Block}
    (hcb : create_block (queue_list s l) ts p = some (s2, b)) :
    deref s2 b.TxRef = deref s s.currentRef ++ l ∧ deref s2 s2.currentRef = [] := by
  have hwf : s.currentRef < s.store.length := reachable_wf h
  have hq : deref (queue_list s l) (queue_list s l).currentRef =
      deref s s.currentRef ++ l := by
    rw [queue_list_currentRef]
    exact queue_list_deref l s hwf
  obtain ⟨last, hl, hb, hchain, hst⟩ := create_block_some hcb
  have htx : b.TxRef = (queue_list s l).currentRef := by rw [hb]
  rcases hst with ⟨he, h1, h2⟩ | ⟨he, h1, h2⟩
  · constructor
    · show (s2.store).getD b.TxRef [] = _
      rw [h1, htx]
      exact hq
    · show (s2.store).getD s2.currentRef [] = []
      rw [h1, h2]
      exact he
  · have hql : (queue_list s l).currentRef < (queue_list s l).store.length := by
      rw [queue_list_currentRef, queue_list_store_length]
      exact hwf
    constructor
    · show (s2.store).getD b.TxRef [] = _
      rw [h1, htx, List.getD_append _ _ _ _ hql]
      exact hq
    · show (s2.store).getD s2.currentRef [] = []
      rw [h1, h2]
      exact getD_concat_len _ _ _

/-- Witness for C4: queueing `("A", "B", 1)` on the fresh `S1B` and
sealing gives a block holding exactly that transaction, and an empty
queue. -/
theorem c4_queue_then_seal_witness :
    deref S2B B2B.TxRef = deref S1B S1B.currentRef ++ [T1] ∧
    deref S2B S2B.currentRef = [] :=
  c4_queue_then_seal reachable_S1B [T1] "9.0" 1 seal_SQB

/-- Appending a transaction to the pending list object, observed
through `self.current`. -/
theorem create_transaction_deref_current (s : BCState) (sender recipient : String)
    (amount : Int) (h : s.currentRef < s.store.length) :
    deref (create_transaction s sender recipient amount).1 s.currentRef =
      deref s s.currentRef ++ [⟨sender, recipient, amount⟩] := by
  show (s.store.set s.currentRef _).getD s.currentRef [] = _
  rw [getD_set_self _ _ _ _ h]

/-- C1 fails on the code: run `__init__` (timestamp `3684.0`), mine one
block (timestamp `2.0`, proof 5 — the real search result), then queue
one transaction.  The queue object is still the genesis block's
transactions object, so the recomputed digest of `chain[0]` no longer
matches the stored `chain[1].PreviousHash`, although it did before the
`create_transaction` call. -/
theorem c1_linkage_broken :
    Reachable S3A ∧
    (S2A.chain.getD 1 dummyBlock).PreviousHash =
      hash_block S2A (S2A.chain.getD 0 dummyBlock) ∧
    S3A.chain = S2A.chain ∧
    (S3A.chain.getD 1 dummyBlock).PreviousHash ≠
      hash_block S3A (S3A.chain.getD 0 dummyBlock) :=
  ⟨reachable_S3A, by decide, rfl, by decide⟩

/-- C2 fails on the code: on the fresh ledger `S1A` the genesis block
is sealed with an empty transaction list, and the single subsequent
`create_transaction` call mutates that sealed block's transaction list
(list object 0 is shared between the block and `self.current`). -/
theorem c2_sealed_block_mutated :
    Reachable S1A ∧
    deref S1A ((S1A.chain.getD 0 dummyBlock).TxRef) = [] ∧
    Reachable S1Aq ∧
    S1Aq.chain = S1A.chain ∧
    deref S1Aq ((S1Aq.chain.getD 0 dummyBlock).TxRef) = [T1] :=
  ⟨reachable_S1A, by decide, reachable_S1Aq, rfl, by decide⟩

/-- C10: sealing over an empty pending queue leaves the sealed block's
transactions list and the pending queue the same underlying list
object, so one subsequent `create_transaction` call makes the sealed
block (as observed through the chain) contain the new transaction; in
particular on a freshly constructed ledger one queued transaction
appears in the genesis block. -/
theorem c10_empty_seal_alias :
    (∀ (s : BCState) (ts : String) (p : Nat) (s2 : BCState) (b : Block), Reachable s →
      deref s s.currentRef = [] → create_block s ts p = some (s2, b) →
      b.TxRef = s2.currentRef ∧
      ∀ (sender recipient : String) (amount : Int),
        deref (create_transaction s2 sender recipient amount).1 b.TxRef =
          [⟨sender, recipient, amount⟩]) ∧
    (∀ (ts sender recipient : String) (amount : Int) (s : BCState),
      initState ts = some s →
      deref (create_transaction s sender recipient amount).1
        (((create_transaction s sender recipient amount).1.chain.getD 0 dummyBlock).TxRef) =
        [⟨sender, recipient, amount⟩]) := by
  constructor
  · intro s ts p s2 b h hemp hcb
    obtain ⟨hs2, htx⟩ := create_block_empty_alias hemp hcb
    have hwf := reachable_wf h
    have hcur : s2.currentRef = s.currentRef := by rw [hs2]
    have hval : deref s2 s2.currentRef = [] := by rw [hs2]; exact hemp
    have hwf2 : s2.currentRef < s2.store.length := by rw [hs2]; exact hwf
    constructor
    · rw [htx, hcur]
    · intro sender recipient amount
      rw [htx, ← hcur, create_transaction_deref_current s2 sender recipient amount hwf2,
        hval]
      rfl
  · intro ts sender recipient amount s hs
    rw [initState_eq] at hs
    cases Option.some.inj hs
    rfl

/-- Witness for C10: the empty-queue seal `S1A → S2A` (any subsequent
queued transaction lands in block `B2A`), and the genesis scenario on
the fresh ledger `S1B`. -/
theorem c10_empty_seal_alias_witness :
    (B2A.TxRef = S2A.currentRef ∧
      ∀ (sender recipient : String) (amount : Int),
        deref (create_transaction S2A sender recipient amount).1 B2A.TxRef =
          [⟨sender, recipient, amount⟩]) ∧
    deref (create_transaction S1B "A" "B" 1).1
      (((create_transaction S1B "A" "B" 1).1.chain.getD 0 dummyBlock).TxRef) = [T1] :=
  ⟨c10_empty_seal_alias.1 S1A "2.0" 5 S2A B2A reachable_S1A (by decide) seal_S1A,
   c10_empty_seal_alias.2 "1660.0" "A" "B" 1 S1B initState_S1B⟩

/-- Strings with the same character data are equal. -/
theorem string_data_inj {a b : String} (h : a.data = b.data) : a = b := by
  cases a
  cases b
  cases h
  rfl

/-- C6: `validate_proof` concatenates its three arguments in order,
SHA-256-hashes, and returns true iff the leading 4 hex characters are
all `'0'`; on the fixed vector `("0", "0", "abc")` the digest is the
real SHA-256 of `"00abc"` and validation returns false (the digest
starts with `945e`). -/
theorem c6_validate_leading_zeros :
    (∀ lp p lh : String, validate_proofS lp p lh = true ↔
      (sha256hex (lp ++ p ++ lh)).data.take 4 = ['0', '0', '0', '0']) ∧
    sha256hex ("0" ++ "0" ++ "abc") =
      "945e7ca29aa6488ed10982b339d302e8c0da48fb947f14cfc022c85361b16aec" ∧
    validate_proofS "0" "0" "abc" =
      ((sha256hex ("0" ++ "0" ++ "abc")).data.take 4 == ['0', '0', '0', '0']) ∧
    validate_proofS "0" "0" "abc" = false := by
  refine ⟨fun lp p lh => ?_, by decide, by decide, by decide⟩
  unfold validate_proofS strTake
  rw [beq_iff_eq]
  constructor
  · intro h
    exact congrArg String.data h
  · intro h
    exact string_data_inj h

/-- C7: given that some proof satisfies the predicate, the
`_generate_proof_of_work` search (starting at 0, incrementing by 1)
returns the least satisfying non-negative integer, and its result
depends only on the inputs. -/
theorem c7_find_least (lp lh : String) (h : ∃ p, powPred lp lh p) :
    powPred lp lh (find_proof lp lh h) ∧
    (∀ m, m < find_proof lp lh h → ¬ powPred lp lh m) ∧
    ∀ h2 : ∃ p, powPred lp lh p, find_proof lp lh h = find_proof lp lh h2 :=
  ⟨Nat.find_spec h, fun _ hm => Nat.find_min h hm, fun _ => rfl⟩

/-- A satisfying proof for the genesis digest of `S1A` exists (5 works). -/
theorem pow_exists_A : ∃ p, powPred "100" (hash_block S1A B1A) p := ⟨5, by decide⟩

/-- Witness for C7 on the genesis digest of `S1A`. -/
theorem c7_find_least_witness :
    powPred "100" (hash_block S1A B1A)
      (find_proof "100" (hash_block S1A B1A) pow_exists_A) ∧
    (∀ m, m < find_proof "100" (hash_block S1A B1A) pow_exists_A →
      ¬ powPred "100" (hash_block S1A B1A) m) ∧
    ∀ h2 : ∃ p, powPred "100" (hash_block S1A B1A) p,
      find_proof "100" (hash_block S1A B1A) pow_exists_A =
        find_proof "100" (hash_block S1A B1A) h2 :=
  c7_find_least "100" (hash_block S1A B1A) pow_exists_A

/-- C8: a freshly constructed ledger has exactly one block — the
genesis block with index 1, sentinel proof `"100"` and sentinel
previous hash `"1"` — and an empty pending queue.  (No proof-of-work
runs during construction: `create_block_genesis` makes no reference to
the search or to `validate_proofS`.) -/
theorem c8_fresh_ledger (ts : String) :
    ∃ s, initState ts = some s ∧
      get_size s = 1 ∧
      deref s s.currentRef = [] ∧
      (s.chain.getD 0 dummyBlock).Index = 1 ∧
      (s.chain.getD 0 dummyBlock).Hash = PVal.ofString "100" ∧
      (s.chain.getD 0 dummyBlock).PreviousHash = "1" ∧
      (s.chain.getD 0 dummyBlock).Timestamp = ts ∧
      deref s ((s.chain.getD 0 dummyBlock).TxRef) = [] :=
  ⟨⟨[[]], [⟨1, ts, 0, PVal.ofString "100", "1"⟩], 0⟩, initState_eq ts,
   rfl, rfl, rfl, rfl, rfl, rfl, rfl⟩

